import Mathlib

set_option maxHeartbeats 1000000

set_option maxRecDepth 100000

namespace Chameleon

/-- Error taxonomy of the program, src/error.rs enum MacError.
String payloads are carried as char lists. -/
inductive MacError where
  | ValidationFailed (msg : List Char)
  | PermissionDenied (msg : List Char)
  | SystemError (msg : List Char)
  | InvalidFormat (msg : List Char)
  | NetworkError (msg : List Char)
  | DatabaseError (msg : List Char)
  | VendorNotFound (msg : List Char)
  | ParseError (msg : List Char)
  | UnsupportedPlatform (msg : List Char)
deriving DecidableEq

/-- UTF-8 byte width of one Unicode scalar value; Rust str stores UTF-8,
and String len together with byte slicing count these widths. -/
def charLen (c : Char) : Nat :=
  if c.toNat ≤ 127 then 1
  else if c.toNat ≤ 2047 then 2
  else if c.toNat ≤ 65535 then 3
  else 4

/-- UTF-8 byte length of a string given as its scalar sequence. -/
def utf8Len (s : List Char) : Nat := (s.map charLen).sum

/-- Drop the first a bytes of a UTF-8 string. The result is none when a is
not a character boundary or exceeds the length, which in Rust is a
byte-slicing panic. -/
def utf8Drop : List Char → Nat → Option (List Char)
  | s, 0 => some s
  | [], _ + 1 => none
  | c :: s, a + 1 =>
    if charLen c ≤ a + 1 then utf8Drop s (a + 1 - charLen c) else none

/-- Take the first a bytes of a UTF-8 string, none on a non-boundary. -/
def utf8Take : List Char → Nat → Option (List Char)
  | _, 0 => some []
  | [], _ + 1 => none
  | c :: s, a + 1 =>
    if charLen c ≤ a + 1 then (utf8Take s (a + 1 - charLen c)).map (fun t => c :: t)
    else none

/-- The Rust byte slice s[a..b] of a UTF-8 string; none models the panic on
a non-boundary index. -/
def utf8Slice (s : List Char) (a b : Nat) : Option (List Char) :=
  (utf8Drop s a).bind (fun t => utf8Take t (b - a))

/-- Value of one hexadecimal digit, as char::to_digit(16). -/
def hexVal (c : Char) : Option Nat :=
  if 48 ≤ c.toNat ∧ c.toNat ≤ 57 then some (c.toNat - 48)
  else if 97 ≤ c.toNat ∧ c.toNat ≤ 102 then some (c.toNat - 87)
  else if 65 ≤ c.toNat ∧ c.toNat ≤ 70 then some (c.toNat - 55)
  else none

/-- Digit loop of u8::from_str_radix with radix 16: fold the digits with the
u8 overflow check at every step. -/
def parseHexDigitsAux : List Char → Nat → Option Nat
  | [], acc => some acc
  | c :: rest, acc =>
    match hexVal c with
    | none => none
    | some d => if acc * 16 + d ≤ 255 then parseHexDigitsAux rest (acc * 16 + d) else none

/-- Nonempty digit run for u8::from_str_radix; the empty run is an error. -/
def parseHexDigits : List Char → Option Nat
  | [] => none
  | c :: rest => parseHexDigitsAux (c :: rest) 0

/-- u8::from_str_radix(s, 16): an optional sign, then hex digits, with the
u8 range check. A minus sign on the unsigned type only admits value zero. -/
def fromStrRadix16 (s : List Char) : Option Nat :=
  match s with
  | [] => none
  | c :: rest =>
    if c = '+' then parseHexDigits rest
    else if c = '-' then
      (parseHexDigits rest).bind (fun v => if v = 0 then some 0 else none)
    else parseHexDigits (c :: rest)

/-- The three separator characters MacAddress::parse strips, src/mac.rs. -/
def isSep (c : Char) : Bool := (c == ':') || (c == '-') || (c == '.')

/-- Presentation formats of src/mac.rs enum MacFormat. -/
inductive MacFormat where
  | Colon
  | Hyphen
  | Dot
  | Raw
deriving DecidableEq

/-- src/mac.rs struct MacAddress: six raw bytes plus the format tag. -/
structure MacAddress where
  bytes : List Nat
  format : MacFormat
deriving DecidableEq

/-- Message attached when a pair fails to parse; for the two-byte slices the
loop takes, the only reachable ParseIntError is the invalid-digit one. -/
def invalidDigitMsg : List Char := ("invalid digit found in string").toList

/-- The byte-collection loop of MacAddress::parse: for indexes i up to the
fuel, slice clean[2i..2i+2] (outer none models the slicing panic) and feed
it to from_str_radix; the first failed pair yields the ParseError. -/
def parsePairs (clean : List Char) : Nat → Nat → Option (Except MacError (List Nat))
  | _, 0 => some (Except.ok [])
  | i, n + 1 =>
    match utf8Slice clean (2 * i) (2 * i + 2) with
    | none => none
    | some sl =>
      match fromStrRadix16 sl with
      | none => some (Except.error (MacError.ParseError invalidDigitMsg))
      | some b =>
        (parsePairs clean (i + 1) n).map (fun r => r.map (fun bs => b :: bs))

/-- The replace call of MacAddress::parse: the string with every colon,
hyphen and dot deleted. -/
def cleanOf (s : List Char) : List Char := s.filter (fun c => !isSep c)

/-- MacAddress::parse, src/mac.rs lines 33-63. The outer none models a Rust
panic from byte-slicing inside a multi-byte character; some carries the
Rust Result value. -/
def MacAddress.parse (s : List Char) : Option (Except MacError MacAddress) :=
  let clean := cleanOf s
  if utf8Len clean ≠ 12 then
    some (Except.error
      (MacError.InvalidFormat ("MAC address must be 12 hexadecimal characters").toList))
  else
    match parsePairs clean 0 6 with
    | none => none
    | some (Except.error e) => some (Except.error e)
    | some (Except.ok bs) =>
      let fmt :=
        if s.contains ':' then MacFormat.Colon
        else if s.contains '-' then MacFormat.Hyphen
        else if s.contains '.' then MacFormat.Dot
        else MacFormat.Raw
      some (Except.ok ⟨bs, fmt⟩)

/-- Lower-case hex digit of a nibble, as the Rust x format renders it. -/
def hexDigitChar (n : Nat) : Char :=
  if n < 10 then Char.ofNat (48 + n) else Char.ofNat (87 + n)

/-- One byte as two lower-case zero-padded hex digits, Rust format 02x. -/
def byteHex (b : Nat) : List Char := [hexDigitChar (b / 16), hexDigitChar (b % 16)]

/-- The six indexed bytes joined by a separator, as each arm of
MacAddress::as_string writes bytes 0 through 5. -/
def sepJoin (sep : List Char) (b : Nat → Nat) : List Char :=
  byteHex (b 0) ++ sep ++ byteHex (b 1) ++ sep ++ byteHex (b 2) ++ sep
    ++ byteHex (b 3) ++ sep ++ byteHex (b 4) ++ sep ++ byteHex (b 5)

/-- MacAddress::as_string, src/mac.rs lines 65-88. -/
def MacAddress.as_string (m : MacAddress) : List Char :=
  match m.format with
  | MacFormat.Colon => sepJoin [':'] (fun i => m.bytes.getD i 0)
  | MacFormat.Hyphen => sepJoin ['-'] (fun i => m.bytes.getD i 0)
  | MacFormat.Dot => sepJoin ['.'] (fun i => m.bytes.getD i 0)
  | MacFormat.Raw => sepJoin [] (fun i => m.bytes.getD i 0)

/-- Rust str::split on colon-or-hyphen, as generate_random_mac splits the
vendor argument. -/
def splitSep : List Char → List (List Char)
  | [] => [[]]
  | c :: rest =>
    if (c == ':') || (c == '-') then [] :: splitSep rest
    else
      match splitSep rest with
      | [] => [[c]]
      | h :: t => (c :: h) :: t

/-- collect of the mapped from_str_radix results: the first error wins. -/
def collectHex : List (List Char) → Option (List Nat)
  | [] => some []
  | p :: ps => (fromStrRadix16 p).bind (fun b => (collectHex ps).map (fun bs => b :: bs))

/-- generate_random_mac, src/mac.rs lines 103-130. The thread rng is
modelled as the sequence of u8 draws its successive gen calls return; draw
k of the call is rng k reduced mod 256. The vendor argument is vp. -/
def generate_random_mac (rng : Nat → Nat) (vp : Option (List Char)) :
    Except MacError MacAddress :=
  match vp with
  | some p =>
    match collectHex ((splitSep p).take 3) with
    | none => Except.error (MacError.ParseError invalidDigitMsg)
    | some pb =>
      if pb.length ≠ 3 then
        Except.error (MacError.VendorNotFound ("Vendor prefix must be 3 bytes").toList)
      else
        Except.ok ⟨pb ++ [rng 0 % 256, rng 1 % 256, rng 2 % 256], MacFormat.Colon⟩
  | none =>
    Except.ok ⟨[((rng 0 % 256) &&& 254) ||| 2, rng 1 % 256, rng 2 % 256,
                rng 3 % 256, rng 4 % 256, rng 5 % 256], MacFormat.Colon⟩

/-- ASCII lower-casing of one char, the range str::to_lowercase affects on
the ASCII strings the program compares. -/
def toLowerStr (s : List Char) : List Char := s.map Char.toLower

/-- src/rules.rs struct Schedule. -/
structure Schedule where
  days : List (List Char)
  start_time : List Char
  end_time : List Char
deriving DecidableEq

/-- src/rules.rs struct AppRule; the timestamp payload is abstracted to a
number, nothing inspects it. -/
structure AppRule where
  app_name : List Char
  service_name : Option (List Char)
  mac_address : List Char
  interface : List Char
  schedule : Option Schedule
  last_applied : Option Nat
  enabled : Bool
deriving DecidableEq

/-- Decimal digit value of a char. -/
def digitVal (c : Char) : Option Nat :=
  if 48 ≤ c.toNat ∧ c.toNat ≤ 57 then some (c.toNat - 48) else none

/-- One or two decimal digits, greedily, returning value and rest. -/
def parseNum2 : List Char → Option (Nat × List Char)
  | [] => none
  | c :: rest =>
    match digitVal c with
    | none => none
    | some d =>
      match rest with
      | [] => some (d, [])
      | c2 :: rest2 =>
        match digitVal c2 with
        | none => some (d, rest)
        | some d2 => some (10 * d + d2, rest2)

/-- chrono NaiveTime::parse_from_str with format %H:%M, modelled on the
digit strings rule files hold: one-or-two digit hour, a colon, one-or-two
digit minute, nothing trailing, hour below 24, minute below 60. The value
is the second of the day. -/
def parseTimeHM (s : List Char) : Option Nat :=
  match parseNum2 s with
  | none => none
  | some (h, rest) =>
    match rest with
    | [] => none
    | c :: rest2 =>
      if c = ':' then
        match parseNum2 rest2 with
        | none => none
        | some (m, rest3) =>
          if rest3 = [] ∧ h < 24 ∧ m < 60 then some (h * 3600 + m * 60) else none
      else none

/-- The host-local evaluation instant exactly as is_rule_active consumes
it: the weekday name as chrono renders the %A specifier (for example
Monday), and the local time of day in seconds. -/
structure LocalNow where
  weekday : List Char
  timeOfDay : Nat

/-- RuleManager::is_rule_active, src/rules.rs lines 89-115. The none result
models the panic of the two unwrap calls on schedule time parsing. -/
def is_rule_active (rule : AppRule) (now : LocalNow) : Option Bool :=
  if rule.enabled = false then some false
  else
    match rule.schedule with
    | none => some true
    | some schedule =>
      let current_day := toLowerStr now.weekday
      if !(schedule.days.any (fun day => toLowerStr day == current_day)) then some false
      else
        match parseTimeHM schedule.start_time with
        | none => none
        | some start_time =>
          match parseTimeHM schedule.end_time with
          | none => none
          | some end_time =>
            if now.timeOfDay < start_time ∨ end_time < now.timeOfDay then some false
            else some true

/-- The HashMap key of the rule store, format of app_name colon interface,
src/rules.rs line 67. -/
def ruleKey (app_name interface : List Char) : List Char :=
  app_name ++ ':' :: interface

/-- The rules HashMap of RuleManager, as the map from key strings to rules. -/
def RuleStore : Type := List Char → Option AppRule

/-- The store of a fresh manager with no rule file. -/
def emptyStore : RuleStore := fun _ => none

/-- RuleManager::add_rule, src/rules.rs lines 66-71: HashMap::insert at the
concatenated key. -/
def add_rule (rules : RuleStore) (rule : AppRule) : RuleStore :=
  fun k => if k = ruleKey rule.app_name rule.interface then some rule else rules k

/-- RuleManager::remove_rule, src/rules.rs lines 73-78. -/
def remove_rule (rules : RuleStore) (app_name interface : List Char) : RuleStore :=
  fun k => if k = ruleKey app_name interface then none else rules k

/-- RuleManager::get_rule, src/rules.rs lines 80-83. -/
def get_rule (rules : RuleStore) (app_name interface : List Char) : Option AppRule :=
  rules (ruleKey app_name interface)

/-- Captured outcome of one spawned command, std::process::Output. -/
structure CmdOutput where
  success : Bool
  stdout : List Char
  stderr : List Char

/-- The error text execute_command captures: stderr when nonempty, else
stdout, else the fixed text. -/
def cmdErrMsg (o : CmdOutput) : List Char :=
  if o.stderr ≠ [] then o.stderr
  else if o.stdout ≠ [] then o.stdout
  else ("Unknown error").toList

/-- execute_command, src/platform.rs lines 116-137: a failed status becomes
SystemError with the captured text. The argument is the captured output of
the spawned command. -/
def execute_command (o : CmdOutput) : Except MacError Unit :=
  if o.success then Except.ok ()
  else Except.error (MacError.SystemError (cmdErrMsg o))

/-- The verification failure text of verify_mac_change, with both the
expected and the observed value embedded. -/
def verifyFailMsg (expected current : List Char) : List Char :=
  ("MAC address change verification failed. Expected ").toList ++ expected
    ++ (", got ").toList ++ current

/-- verify_mac_change, Linux build, src/platform.rs lines 318-332. The
first argument is the outcome of network::get_current_mac re-reading the
interface after the settle. -/
def verify_mac_change (read_mac : Except MacError (List Char)) (expected_mac : List Char) :
    Except MacError Unit :=
  match read_mac with
  | Except.error e => Except.error e
  | Except.ok current_mac =>
    if toLowerStr current_mac ≠ toLowerStr expected_mac then
      Except.error (MacError.ValidationFailed (verifyFailMsg expected_mac current_mac))
    else Except.ok ()

/-- The observable steps of one change_mac run, in execution order. -/
inductive Event where
  | permCheck
  | ifaceCheck
  | serviceStop
  | linkDownAttempt (attempt : Nat)
  | pause
  | setAddress
  | linkUp
  | serviceStart
  | persist
  | verify
deriving DecidableEq

/-- The host behaviour one change_mac run observes: the privilege check,
the interface lookup, the resolved ip binary, the captured output of the
link-down command per attempt number, of the address-set and link-up
commands, the outcome of make_permanent, and the re-read address. -/
structure World where
  root : Bool
  iface_present : Bool
  ip_cmd : Option (List Char)
  link_down : Nat → CmdOutput
  set_address : CmdOutput
  link_up : CmdOutput
  persist : Except MacError Unit
  current_mac : Except MacError (List Char)

/-- The link-down retry loop of change_mac, src/platform.rs lines 183-203:
attempts are numbered from 1, fuel counts the attempts still allowed, a
failure records a pause (the 1-second sleep) and keeps the last error. -/
def tryLinkDown (ld : Nat → CmdOutput) : Nat → Nat → List Event × Except MacError Unit
  | _, 0 => ([], Except.error (MacError.SystemError []))
  | attempt, n + 1 =>
    match execute_command (ld attempt) with
    | Except.ok _ => ([Event.linkDownAttempt attempt], Except.ok ())
    | Except.error e =>
      if n = 0 then ([Event.linkDownAttempt attempt, Event.pause], Except.error e)
      else
        match tryLinkDown ld (attempt + 1) n with
        | (tr, r) => (Event.linkDownAttempt attempt :: Event.pause :: tr, r)

/-- change_mac, Linux build, src/platform.rs lines 162-230, returning the
event trace beside the result. The NetworkManager stop and start have
their outcome discarded by the source, so only their events appear. -/
def change_mac (w : World) (interface mac : List Char) (permanent : Bool) :
    List Event × Except MacError Unit :=
  if w.root = false then
    ([Event.permCheck],
      Except.error (MacError.PermissionDenied
        ("This program must be run with root privileges. Please use sudo.").toList))
  else if w.iface_present = false then
    ([Event.permCheck, Event.ifaceCheck],
      Except.error (MacError.ValidationFailed
        (("Interface ").toList ++ interface ++ (" does not exist").toList)))
  else
    match w.ip_cmd with
    | none =>
      ([Event.permCheck, Event.ifaceCheck],
        Except.error (MacError.SystemError
          ("ip command not found. Please install iproute2").toList))
    | some _ =>
      match tryLinkDown w.link_down 1 3 with
      | (tr, Except.error e) =>
        ([Event.permCheck, Event.ifaceCheck, Event.serviceStop] ++ tr, Except.error e)
      | (tr, Except.ok _) =>
        match execute_command w.set_address with
        | Except.error e =>
          ([Event.permCheck, Event.ifaceCheck, Event.serviceStop] ++ tr
            ++ [Event.setAddress], Except.error e)
        | Except.ok _ =>
          match execute_command w.link_up with
          | Except.error e =>
            ([Event.permCheck, Event.ifaceCheck, Event.serviceStop] ++ tr
              ++ [Event.setAddress, Event.linkUp], Except.error e)
          | Except.ok _ =>
            if permanent then
              match w.persist with
              | Except.error e =>
                ([Event.permCheck, Event.ifaceCheck, Event.serviceStop] ++ tr
                  ++ [Event.setAddress, Event.linkUp, Event.serviceStart, Event.persist],
                  Except.error e)
              | Except.ok _ =>
                match verify_mac_change w.current_mac mac with
                | Except.error e =>
                  ([Event.permCheck, Event.ifaceCheck, Event.serviceStop] ++ tr
                    ++ [Event.setAddress, Event.linkUp, Event.serviceStart, Event.persist,
                        Event.verify], Except.error e)
                | Except.ok _ =>
                  ([Event.permCheck, Event.ifaceCheck, Event.serviceStop] ++ tr
                    ++ [Event.setAddress, Event.linkUp, Event.serviceStart, Event.persist,
                        Event.verify], Except.ok ())
            else
              match verify_mac_change w.current_mac mac with
              | Except.error e =>
                ([Event.permCheck, Event.ifaceCheck, Event.serviceStop] ++ tr
                  ++ [Event.setAddress, Event.linkUp, Event.serviceStart, Event.verify],
                  Except.error e)
              | Except.ok _ =>
                ([Event.permCheck, Event.ifaceCheck, Event.serviceStop] ++ tr
                  ++ [Event.setAddress, Event.linkUp, Event.serviceStart, Event.verify],
                  Except.ok ())

/-- A string of one-byte scalars: pure ASCII in the UTF-8 sense. -/
def asciiStr (s : List Char) : Prop := ∀ c ∈ s, charLen c = 1

instance (s : List Char) : Decidable (asciiStr s) :=
  inferInstanceAs (Decidable (∀ c ∈ s, charLen c = 1))

/-- A successful captured command outcome. -/
def okOut : CmdOutput := ⟨true, [], []⟩

/-- A failed captured command outcome with stderr text boom. -/
def failOut : CmdOutput := ⟨false, [], ("boom").toList⟩

/-- A host on which every step of a change succeeds and the re-read
address is aa:bb:cc:dd:ee:ff. -/
def okWorld : World :=
  ⟨true, true, some (("/sbin/ip").toList), fun _ => okOut, okOut, okOut,
    Except.ok (), Except.ok (("aa:bb:cc:dd:ee:ff").toList)⟩

/-- Like okWorld but every link-down attempt fails. -/
def failDownWorld : World := { okWorld with link_down := fun _ => failOut }

/-- Like okWorld but link-down fails twice and succeeds on the third try. -/
def thirdTryWorld : World :=
  { okWorld with link_down := fun a => if a < 3 then failOut else okOut }

/-- The schedule rule of the spec example: monday, 09:00 to 17:00. -/
def mondayRule : AppRule :=
  ⟨("app").toList, none, ("aa:bb:cc:dd:ee:ff").toList, ("eth0").toList,
    some ⟨[("monday").toList], ("09:00").toList, ("17:00").toList⟩, none, true⟩

/-- mondayRule with an unparseable start time. -/
def badTimeRule : AppRule :=
  ⟨("app").toList, none, ("aa:bb:cc:dd:ee:ff").toList, ("eth0").toList,
    some ⟨[("monday").toList], ("nine").toList, ("17:00").toList⟩, none, true⟩

/-- A rule whose app name itself holds a colon, keyed for interface c. -/
def aliasRule : AppRule :=
  ⟨("a:b").toList, none, ("aa:bb:cc:dd:ee:ff").toList, ("c").toList, none, none, true⟩

/- ----------------------------------------------------------------------
   Helper lemmas
   ---------------------------------------------------------------------- -/

theorem charLen_hexDigitChar : ∀ n, n < 16 → charLen (hexDigitChar n) = 1 := by decide

theorem isSep_hexDigitChar : ∀ n, n < 16 → isSep (hexDigitChar n) = false := by decide

theorem hexDigitChar_beq : ∀ n, n < 16 →
    ((hexDigitChar n == ':') = false ∧ (hexDigitChar n == '-') = false ∧
      (hexDigitChar n == '.') = false) := by decide

theorem fromStrRadix16_byteHex : ∀ b, b < 256 → fromStrRadix16 (byteHex b) = some b := by
  decide

theorem hexVal_lt {c : Char} {d : Nat} (h : hexVal c = some d) : d < 16 := by
  unfold hexVal at h
  split at h
  · simp only [Option.some.injEq] at h; omega
  · split at h
    · simp only [Option.some.injEq] at h; omega
    · split at h
      · simp only [Option.some.injEq] at h; omega
      · simp at h

theorem utf8Len_ascii : ∀ {s : List Char}, asciiStr s → utf8Len s = s.length := by
  intro s
  induction s with
  | nil => intro _; rfl
  | cons c t ih =>
    intro h
    have hc : charLen c = 1 := h c (List.mem_cons_self c t)
    have ht : asciiStr t := fun x hx => h x (List.mem_cons_of_mem c hx)
    have ihh := ih ht
    simp only [utf8Len, List.map_cons, List.sum_cons, hc, List.length_cons]
    simp only [utf8Len] at ihh
    omega

theorem utf8Drop_ascii : ∀ {s : List Char}, asciiStr s →
    ∀ n, n ≤ s.length → utf8Drop s n = some (s.drop n) := by
  intro s
  induction s with
  | nil =>
    intro _ n hn
    have : n = 0 := by simpa using hn
    subst this; rfl
  | cons c t ih =>
    intro h n hn
    cases n with
    | zero => rfl
    | succ m =>
      have hc : charLen c = 1 := h c (List.mem_cons_self c t)
      have ht : asciiStr t := fun x hx => h x (List.mem_cons_of_mem c hx)
      simp only [utf8Drop, hc]
      rw [if_pos (by omega)]
      rw [show m + 1 - 1 = m from rfl]
      rw [ih ht m (by simpa using hn)]
      rfl

theorem utf8Take_ascii : ∀ {s : List Char}, asciiStr s →
    ∀ n, n ≤ s.length → utf8Take s n = some (s.take n) := by
  intro s
  induction s with
  | nil =>
    intro _ n hn
    have : n = 0 := by simpa using hn
    subst this; rfl
  | cons c t ih =>
    intro h n hn
    cases n with
    | zero => rfl
    | succ m =>
      have hc : charLen c = 1 := h c (List.mem_cons_self c t)
      have ht : asciiStr t := fun x hx => h x (List.mem_cons_of_mem c hx)
      simp only [utf8Take, hc]
      rw [if_pos (by omega)]
      rw [show m + 1 - 1 = m from rfl]
      rw [ih ht m (by simpa using hn)]
      rfl

theorem utf8Slice_ascii {s : List Char} (h : asciiStr s) {a b : Nat}
    (hab : a ≤ b) (hb : b ≤ s.length) :
    utf8Slice s a b = some ((s.drop a).take (b - a)) := by
  have hd : utf8Drop s a = some (s.drop a) := utf8Drop_ascii h a (le_trans hab hb)
  have hdrop : asciiStr (s.drop a) := fun x hx => h x (List.drop_subset a s hx)
  have hlen : b - a ≤ (s.drop a).length := by
    rw [List.length_drop]; omega
  rw [utf8Slice, hd]
  show utf8Take (s.drop a) (b - a) = _
  exact utf8Take_ascii hdrop (b - a) hlen

theorem utf8Slice_two {c1 c2 : Char} (h1 : charLen c1 = 1) (h2 : charLen c2 = 1)
    (rest : List Char) : utf8Slice (c1 :: c2 :: rest) 0 2 = some [c1, c2] := by
  simp [utf8Slice, utf8Drop, utf8Take, h1, h2]

theorem utf8Drop_cons_ascii {c : Char} (h : charLen c = 1) (s : List Char) (n : Nat) :
    utf8Drop (c :: s) (n + 1) = utf8Drop s n := by
  simp [utf8Drop, h]

theorem utf8Slice_shift2 {c1 c2 : Char} (h1 : charLen c1 = 1) (h2 : charLen c2 = 1)
    (rest : List Char) (a b : Nat) :
    utf8Slice (c1 :: c2 :: rest) (a + 2) (b + 2) = utf8Slice rest a b := by
  simp only [utf8Slice]
  rw [show a + 2 = a + 1 + 1 from rfl, utf8Drop_cons_ascii h1, utf8Drop_cons_ascii h2]
  rw [show b + 2 - (a + 1 + 1) = b - a by omega]

theorem parsePairs_shift {c1 c2 : Char} (h1 : charLen c1 = 1) (h2 : charLen c2 = 1)
    (rest : List Char) :
    ∀ n i, parsePairs (c1 :: c2 :: rest) (i + 1) n = parsePairs rest i n := by
  intro n
  induction n with
  | zero => intro i; rfl
  | succ m ih =>
    intro i
    have hs : utf8Slice (c1 :: c2 :: rest) (2 * (i + 1)) (2 * (i + 1) + 2)
        = utf8Slice rest (2 * i) (2 * i + 2) := by
      rw [show 2 * (i + 1) = 2 * i + 2 by ring]
      exact utf8Slice_shift2 h1 h2 rest (2 * i) (2 * i + 2)
    simp only [parsePairs, hs, ih (i + 1)]

theorem parsePairs_step_ok {c1 c2 : Char} (h1 : charLen c1 = 1) (h2 : charLen c2 = 1)
    {b : Nat} (hb : fromStrRadix16 [c1, c2] = some b) (rest : List Char) (n : Nat) :
    parsePairs (c1 :: c2 :: rest) 0 (n + 1)
      = (parsePairs rest 0 n).map (fun r => r.map (fun bs => b :: bs)) := by
  have hs : utf8Slice (c1 :: c2 :: rest) (2 * 0) (2 * 0 + 2) = some [c1, c2] := by
    simpa using utf8Slice_two h1 h2 rest
  simp only [parsePairs, hs, hb, parsePairs_shift h1 h2]

theorem parsePairs_step_err {c1 c2 : Char} (h1 : charLen c1 = 1) (h2 : charLen c2 = 1)
    (hb : fromStrRadix16 [c1, c2] = none) (rest : List Char) (n : Nat) :
    parsePairs (c1 :: c2 :: rest) 0 (n + 1)
      = some (Except.error (MacError.ParseError invalidDigitMsg)) := by
  have hs : utf8Slice (c1 :: c2 :: rest) (2 * 0) (2 * 0 + 2) = some [c1, c2] := by
    simpa using utf8Slice_two h1 h2 rest
  simp only [parsePairs, hs, hb]

theorem fromStrRadix16_hex2 {c1 c2 : Char} {d1 d2 : Nat}
    (h1 : hexVal c1 = some d1) (h2 : hexVal c2 = some d2) :
    fromStrRadix16 [c1, c2] = some (16 * d1 + d2) := by
  have p1 : c1 ≠ '+' := by
    intro e; rw [e, show hexVal '+' = none from rfl] at h1; exact Option.noConfusion h1
  have p2 : c1 ≠ '-' := by
    intro e; rw [e, show hexVal '-' = none from rfl] at h1; exact Option.noConfusion h1
  have b1 : d1 < 16 := hexVal_lt h1
  have b2 : d2 < 16 := hexVal_lt h2
  simp only [fromStrRadix16, if_neg p1, if_neg p2, parseHexDigits, parseHexDigitsAux, h1, h2]
  rw [if_pos (by omega), if_pos (by omega)]
  simp only [parseHexDigitsAux, Option.some.injEq]
  ring

theorem fromStrRadix16_pair_none_left {c c2 : Char} (h : hexVal c = none)
    (hp : c ≠ '+') (hm : c ≠ '-') : fromStrRadix16 [c, c2] = none := by
  simp only [fromStrRadix16, if_neg hp, if_neg hm, parseHexDigits, parseHexDigitsAux, h]

theorem fromStrRadix16_pair_none_right {c1 c : Char} (h : hexVal c = none) :
    fromStrRadix16 [c1, c] = none := by
  by_cases hp : c1 = '+'
  · subst hp
    simp [fromStrRadix16, parseHexDigits, parseHexDigitsAux, h]
  · by_cases hm : c1 = '-'
    · subst hm
      simp [fromStrRadix16, parseHexDigits, parseHexDigitsAux, h]
    · simp only [fromStrRadix16, if_neg hp, if_neg hm, parseHexDigits, parseHexDigitsAux]
      cases hv : hexVal c1 with
      | none => rfl
      | some d1 =>
        have hb : d1 ≤ 255 := by have := hexVal_lt hv; omega
        simp [parseHexDigitsAux, h, hb]

theorem parsePairs_isSome_general : ∀ (n : Nat) (clean : List Char), asciiStr clean →
    clean.length = 2 * n → (parsePairs clean 0 n).isSome := by
  intro n
  induction n with
  | zero => intro clean _ _; rfl
  | succ m ih =>
    intro clean hascii hlen
    rcases clean with _ | ⟨c1, t⟩
    · simp at hlen
    rcases t with _ | ⟨c2, rest⟩
    · simp at hlen; omega
    have h1 : charLen c1 = 1 := hascii c1 (by simp)
    have h2 : charLen c2 = 1 := hascii c2 (by simp)
    have hrest : asciiStr rest := fun x hx => hascii x (by simp [hx])
    have hrl : rest.length = 2 * m := by simp at hlen; omega
    cases hfr : fromStrRadix16 [c1, c2] with
    | none => rw [parsePairs_step_err h1 h2 hfr]; rfl
    | some b =>
      rw [parsePairs_step_ok h1 h2 hfr]
      have hs := ih rest hrest hrl
      cases hpp : parsePairs rest 0 m with
      | none => rw [hpp] at hs; exact absurd hs (by simp)
      | some r => rfl

theorem parsePairs_ok_general : ∀ (n : Nat) (clean : List Char), asciiStr clean →
    clean.length = 2 * n → (∀ c ∈ clean, (hexVal c).isSome) →
    ∃ bs, parsePairs clean 0 n = some (Except.ok bs) := by
  intro n
  induction n with
  | zero => intro clean _ _ _; exact ⟨[], rfl⟩
  | succ m ih =>
    intro clean hascii hlen hhex
    rcases clean with _ | ⟨c1, t⟩
    · simp at hlen
    rcases t with _ | ⟨c2, rest⟩
    · simp at hlen; omega
    have h1 : charLen c1 = 1 := hascii c1 (by simp)
    have h2 : charLen c2 = 1 := hascii c2 (by simp)
    have hrest : asciiStr rest := fun x hx => hascii x (by simp [hx])
    have hrl : rest.length = 2 * m := by simp at hlen; omega
    obtain ⟨d1, hd1⟩ := Option.isSome_iff_exists.mp (hhex c1 (by simp))
    obtain ⟨d2, hd2⟩ := Option.isSome_iff_exists.mp (hhex c2 (by simp))
    obtain ⟨bs, hbs⟩ := ih rest hrest hrl (fun x hx => hhex x (by simp [hx]))
    refine ⟨(16 * d1 + d2) :: bs, ?_⟩
    rw [parsePairs_step_ok h1 h2 (fromStrRadix16_hex2 hd1 hd2), hbs]
    rfl

theorem parsePairs_err_general : ∀ (n : Nat) (clean : List Char), asciiStr clean →
    clean.length = 2 * n →
    (∃ c ∈ clean, hexVal c = none ∧ c ≠ '+' ∧ c ≠ '-') →
    parsePairs clean 0 n = some (Except.error (MacError.ParseError invalidDigitMsg)) := by
  intro n
  induction n with
  | zero =>
    intro clean _ hlen hbad
    obtain ⟨c, hc, _⟩ := hbad
    rw [List.length_eq_zero.mp (by omega : clean.length = 0)] at hc
    exact absurd hc (List.not_mem_nil c)
  | succ m ih =>
    intro clean hascii hlen hbad
    rcases clean with _ | ⟨c1, t⟩
    · simp at hlen
    rcases t with _ | ⟨c2, rest⟩
    · simp at hlen; omega
    have h1 : charLen c1 = 1 := hascii c1 (by simp)
    have h2 : charLen c2 = 1 := hascii c2 (by simp)
    have hrest : asciiStr rest := fun x hx => hascii x (by simp [hx])
    have hrl : rest.length = 2 * m := by simp at hlen; omega
    obtain ⟨c, hc, hcv, hcp, hcm⟩ := hbad
    rcases List.mem_cons.mp hc with rfl | hc2
    · exact parsePairs_step_err h1 h2 (fromStrRadix16_pair_none_left hcv hcp hcm) rest m
    rcases List.mem_cons.mp hc2 with rfl | hc3
    · exact parsePairs_step_err h1 h2 (fromStrRadix16_pair_none_right hcv) rest m
    · cases hfr : fromStrRadix16 [c1, c2] with
      | none => exact parsePairs_step_err h1 h2 hfr rest m
      | some b =>
        rw [parsePairs_step_ok h1 h2 hfr, ih rest hrest hrl ⟨c, hc3, hcv, hcp, hcm⟩]
        rfl

theorem mem_cleanOf_not_sep {c : Char} {s : List Char} (h : c ∈ cleanOf s) :
    isSep c = false := by
  have := (List.mem_filter.mp h).2
  simpa using this

theorem asciiStr_cleanOf {s : List Char} (h : asciiStr s) : asciiStr (cleanOf s) :=
  fun c hc => h c (List.mem_of_mem_filter hc)

/- ----------------------------------------------------------------------
   Claims about MacAddress::parse
   ---------------------------------------------------------------------- -/

/-- C3 counterexample: the string AA:BB-CC:DD:EE:FF mixes the colon and
hyphen separator families, yet MacAddress::parse accepts it and returns
the six bytes with the colon format tag, because parse strips all three
separator characters before any shape check. The claim says every
mixed-family string is rejected with InvalidFormat. -/
theorem c3_counterexample :
    MacAddress.parse (("AA:BB-CC:DD:EE:FF").toList)
      = some (Except.ok ⟨[170, 187, 204, 221, 238, 255], MacFormat.Colon⟩) := by
  rfl

/-- C3 (amended): parse first deletes every colon, hyphen and dot, with no
shape check on their placement. It rejects with InvalidFormat exactly the
strings whose stripped form is not 12 bytes long; on a pure-ASCII string
whose stripped form has 12 characters it succeeds when all of them are hex
digits, and rejects with ParseError (not InvalidFormat) when a character
that is neither a hex digit nor a plus sign remains. -/
theorem c3_amended : ∀ s : List Char,
    (utf8Len (cleanOf s) ≠ 12 →
      MacAddress.parse s = some (Except.error (MacError.InvalidFormat
        ("MAC address must be 12 hexadecimal characters").toList))) ∧
    (asciiStr s → (cleanOf s).length = 12 → (∀ c ∈ cleanOf s, (hexVal c).isSome) →
      ∃ m, MacAddress.parse s = some (Except.ok m)) ∧
    (asciiStr s → (cleanOf s).length = 12 →
      (∃ c ∈ cleanOf s, hexVal c = none ∧ c ≠ '+') →
      MacAddress.parse s = some (Except.error (MacError.ParseError invalidDigitMsg))) := by
  intro s
  refine ⟨fun h => ?_, fun ha hlen hhex => ?_, fun ha hlen hbad => ?_⟩
  · simp only [MacAddress.parse]
    rw [if_pos h]
  · have hca : asciiStr (cleanOf s) := asciiStr_cleanOf ha
    have hu : utf8Len (cleanOf s) = 12 := by rw [utf8Len_ascii hca, hlen]
    obtain ⟨bs, hbs⟩ := parsePairs_ok_general 6 (cleanOf s) hca (by omega) hhex
    simp only [MacAddress.parse]
    rw [if_neg (by omega), hbs]
    exact ⟨_, rfl⟩
  · have hca : asciiStr (cleanOf s) := asciiStr_cleanOf ha
    have hu : utf8Len (cleanOf s) = 12 := by rw [utf8Len_ascii hca, hlen]
    obtain ⟨c, hc, hcv, hcp⟩ := hbad
    have hcm : c ≠ '-' := by
      have hns := mem_cleanOf_not_sep hc
      intro e; subst e; simp [isSep] at hns
    have herr := parsePairs_err_general 6 (cleanOf s) hca (by omega) ⟨c, hc, hcv, hcp, hcm⟩
    simp only [MacAddress.parse]
    rw [if_neg (by omega), herr]

/-- C3 witness: the amended theorem applied at concrete inputs — a
two-dot-family string parses, a 10-digit string gets InvalidFormat, and a
12-character string holding the non-hex letter g gets ParseError. -/
theorem c3_witness :
    (∃ m, MacAddress.parse (("aabb.ccdd.eeff").toList) = some (Except.ok m)) ∧
    MacAddress.parse (("aabbccddee").toList) = some (Except.error (MacError.InvalidFormat
      ("MAC address must be 12 hexadecimal characters").toList)) ∧
    MacAddress.parse (("aabbccddeegg").toList)
      = some (Except.error (MacError.ParseError invalidDigitMsg)) := by
  refine ⟨(c3_amended _).2.1 (by decide) (by decide) (by decide),
          (c3_amended _).1 (by decide),
          (c3_amended _).2.2 (by decide) (by decide) ⟨'g', by decide, by decide, by decide⟩⟩

/-- C9: MacAddress::parse is not total. The stripped form of the concrete
string aabbccdde-eacute-f is 12 UTF-8 bytes long, so the length gate
passes, but the byte slice at 8..10 lands inside the two-byte character
and panics (the none result). On every pure-ASCII string parse returns a
Result and never panics. -/
theorem c9_parse_totality :
    (MacAddress.parse (("aabbccdde").toList ++ [Char.ofNat 233] ++ ['f']) = none) ∧
    (∀ s : List Char, asciiStr s → (MacAddress.parse s).isSome) := by
  constructor
  · rfl
  · intro s ha
    by_cases h : utf8Len (cleanOf s) = 12
    · have hca : asciiStr (cleanOf s) := asciiStr_cleanOf ha
      have hlen : (cleanOf s).length = 12 := by rw [← utf8Len_ascii hca, h]
      have hps := parsePairs_isSome_general 6 (cleanOf s) hca (by omega)
      simp only [MacAddress.parse]
      rw [if_neg (by omega)]
      obtain ⟨r, hr⟩ := Option.isSome_iff_exists.mp hps
      rw [hr]
      cases r with
      | error e => rfl
      | ok bs => rfl
    · simp only [MacAddress.parse]
      rw [if_pos h]
      rfl

/-- C9 witness: the totality half applied at the ASCII string
aabbccddeeff. -/
theorem c9_witness : (MacAddress.parse (("aabbccddeeff").toList)).isSome :=
  c9_parse_totality.2 (("aabbccddeeff").toList) (by decide)

theorem hexPairFacts : ∀ b : Nat, b < 256 →
    charLen (hexDigitChar (b / 16)) = 1 ∧ charLen (hexDigitChar (b % 16)) = 1 ∧
      fromStrRadix16 [hexDigitChar (b / 16), hexDigitChar (b % 16)] = some b := by
  intro b hb
  exact ⟨charLen_hexDigitChar _ (by omega), charLen_hexDigitChar _ (by omega),
    by simpa [byteHex] using fromStrRadix16_byteHex b hb⟩

theorem parsePairs_sixBytes {b0 b1 b2 b3 b4 b5 : Nat}
    (h0 : b0 < 256) (h1 : b1 < 256) (h2 : b2 < 256) (h3 : b3 < 256) (h4 : b4 < 256)
    (h5 : b5 < 256) :
    parsePairs (byteHex b0 ++ byteHex b1 ++ byteHex b2 ++ byteHex b3 ++ byteHex b4
      ++ byteHex b5) 0 6 = some (Except.ok [b0, b1, b2, b3, b4, b5]) := by
  obtain ⟨a0, b0m, f0⟩ := hexPairFacts b0 h0
  obtain ⟨a1, b1m, f1⟩ := hexPairFacts b1 h1
  obtain ⟨a2, b2m, f2⟩ := hexPairFacts b2 h2
  obtain ⟨a3, b3m, f3⟩ := hexPairFacts b3 h3
  obtain ⟨a4, b4m, f4⟩ := hexPairFacts b4 h4
  obtain ⟨a5, b5m, f5⟩ := hexPairFacts b5 h5
  simp only [byteHex, List.cons_append, List.nil_append]
  rw [parsePairs_step_ok a0 b0m f0, parsePairs_step_ok a1 b1m f1,
    parsePairs_step_ok a2 b2m f2, parsePairs_step_ok a3 b3m f3,
    parsePairs_step_ok a4 b4m f4, parsePairs_step_ok a5 b5m f5]
  rfl

theorem cleanOf_append (x y : List Char) : cleanOf (x ++ y) = cleanOf x ++ cleanOf y := by
  simp [cleanOf, List.filter_append]

theorem cleanOf_byteHex {b : Nat} (hb : b < 256) : cleanOf (byteHex b) = byteHex b := by
  have i1 := isSep_hexDigitChar (b / 16) (by omega)
  have i2 := isSep_hexDigitChar (b % 16) (by omega)
  simp [cleanOf, byteHex, List.filter, i1, i2]

theorem asciiStr_byteHex {b : Nat} (hb : b < 256) : asciiStr (byteHex b) := by
  intro c hc
  simp [byteHex] at hc
  rcases hc with rfl | rfl
  · exact charLen_hexDigitChar _ (by omega)
  · exact charLen_hexDigitChar _ (by omega)

theorem asciiStr_append {x y : List Char} (hx : asciiStr x) (hy : asciiStr y) :
    asciiStr (x ++ y) := by
  intro c hc
  rcases List.mem_append.mp hc with h | h
  exacts [hx c h, hy c h]

theorem cleanOf_joined (sep : List Char) (hsep : cleanOf sep = [])
    {b0 b1 b2 b3 b4 b5 : Nat} (h0 : b0 < 256) (h1 : b1 < 256) (h2 : b2 < 256)
    (h3 : b3 < 256) (h4 : b4 < 256) (h5 : b5 < 256) :
    cleanOf (byteHex b0 ++ sep ++ byteHex b1 ++ sep ++ byteHex b2 ++ sep ++ byteHex b3
      ++ sep ++ byteHex b4 ++ sep ++ byteHex b5)
      = byteHex b0 ++ byteHex b1 ++ byteHex b2 ++ byteHex b3 ++ byteHex b4 ++ byteHex b5 := by
  simp only [cleanOf_append, hsep, cleanOf_byteHex h0, cleanOf_byteHex h1,
    cleanOf_byteHex h2, cleanOf_byteHex h3, cleanOf_byteHex h4, cleanOf_byteHex h5,
    List.append_nil, List.nil_append]

theorem sixBytes_utf8Len {b0 b1 b2 b3 b4 b5 : Nat} (h0 : b0 < 256) (h1 : b1 < 256)
    (h2 : b2 < 256) (h3 : b3 < 256) (h4 : b4 < 256) (h5 : b5 < 256) :
    utf8Len (byteHex b0 ++ byteHex b1 ++ byteHex b2 ++ byteHex b3 ++ byteHex b4
      ++ byteHex b5) = 12 := by
  have ha : asciiStr (byteHex b0 ++ byteHex b1 ++ byteHex b2 ++ byteHex b3 ++ byteHex b4
      ++ byteHex b5) :=
    asciiStr_append (asciiStr_append (asciiStr_append (asciiStr_append
      (asciiStr_append (asciiStr_byteHex h0) (asciiStr_byteHex h1)) (asciiStr_byteHex h2))
        (asciiStr_byteHex h3)) (asciiStr_byteHex h4)) (asciiStr_byteHex h5)
  rw [utf8Len_ascii ha]
  simp [byteHex]

theorem parse_joined {S : List Char} {b0 b1 b2 b3 b4 b5 : Nat}
    (hclean : cleanOf S = byteHex b0 ++ byteHex b1 ++ byteHex b2 ++ byteHex b3
      ++ byteHex b4 ++ byteHex b5)
    (h0 : b0 < 256) (h1 : b1 < 256) (h2 : b2 < 256) (h3 : b3 < 256) (h4 : b4 < 256)
    (h5 : b5 < 256) :
    MacAddress.parse S = some (Except.ok ⟨[b0, b1, b2, b3, b4, b5],
      if S.contains ':' then MacFormat.Colon
      else if S.contains '-' then MacFormat.Hyphen
      else if S.contains '.' then MacFormat.Dot
      else MacFormat.Raw⟩) := by
  have hu : utf8Len (cleanOf S) = 12 := by
    rw [hclean]; exact sixBytes_utf8Len h0 h1 h2 h3 h4 h5
  simp only [MacAddress.parse]
  rw [if_neg (by omega), hclean, parsePairs_sixBytes h0 h1 h2 h3 h4 h5]

theorem mem_byteHex_elim {c : Char} {b : Nat} (hb : b < 256)
    (hhex : ∀ n, n < 16 → c ≠ hexDigitChar n) (h : c ∈ byteHex b) : False := by
  have h2 : c ∈ [hexDigitChar (b / 16), hexDigitChar (b % 16)] := h
  rcases List.mem_cons.mp h2 with h3 | h3
  · exact hhex _ (by omega) h3
  rcases List.mem_cons.mp h3 with h4 | h4
  · exact hhex _ (by omega) h4
  · exact absurd h4 (List.not_mem_nil c)

theorem not_mem_byteHex (c : Char) (hhex : ∀ n, n < 16 → c ≠ hexDigitChar n)
    {b : Nat} (hb : b < 256) : c ∉ byteHex b :=
  fun h => mem_byteHex_elim hb hhex h

theorem not_mem_joined (c : Char) (sep : List Char) (hcs : c ∉ sep)
    (hhex : ∀ n, n < 16 → c ≠ hexDigitChar n)
    {b0 b1 b2 b3 b4 b5 : Nat} (h0 : b0 < 256) (h1 : b1 < 256) (h2 : b2 < 256)
    (h3 : b3 < 256) (h4 : b4 < 256) (h5 : b5 < 256) :
    c ∉ byteHex b0 ++ sep ++ byteHex b1 ++ sep ++ byteHex b2 ++ sep ++ byteHex b3 ++ sep
      ++ byteHex b4 ++ sep ++ byteHex b5 := by
  intro hm
  simp only [List.mem_append] at hm
  rcases hm with ((((((((((h | h) | h) | h) | h) | h) | h) | h) | h) | h) | h)
  · exact mem_byteHex_elim h0 hhex h
  · exact hcs h
  · exact mem_byteHex_elim h1 hhex h
  · exact hcs h
  · exact mem_byteHex_elim h2 hhex h
  · exact hcs h
  · exact mem_byteHex_elim h3 hhex h
  · exact hcs h
  · exact mem_byteHex_elim h4 hhex h
  · exact hcs h
  · exact mem_byteHex_elim h5 hhex h

theorem mem_joined_sep (c : Char) (b0 b1 b2 b3 b4 b5 : Nat) :
    c ∈ byteHex b0 ++ [c] ++ byteHex b1 ++ [c] ++ byteHex b2 ++ [c] ++ byteHex b3 ++ [c]
      ++ byteHex b4 ++ [c] ++ byteHex b5 := by
  simp [List.mem_append]

theorem contains_eq_true_of_mem {c : Char} {l : List Char} (h : c ∈ l) :
    l.contains c = true := by
  simp [List.contains, List.elem_eq_mem, h]

theorem contains_eq_false_of_not_mem {c : Char} {l : List Char} (h : c ∉ l) :
    l.contains c = false := by
  simp [List.contains, List.elem_eq_mem, h]

/-- C5 counterexample: the spec names three dot-separated four-hex groups
as the dot family shape, so aabb.ccdd.eeff is its canonical lower-case
string; parse accepts it and keeps the dot family, but as_string renders
six dot-separated pairs, so parse followed by format is not the identity
on that canonical string even though bytes and family are preserved. -/
theorem c5_counterexample :
    MacAddress.parse (("aabb.ccdd.eeff").toList)
      = some (Except.ok ⟨[170, 187, 204, 221, 238, 255], MacFormat.Dot⟩) ∧
    MacAddress.as_string ⟨[170, 187, 204, 221, 238, 255], MacFormat.Dot⟩
      = ("aa.bb.cc.dd.ee.ff").toList ∧
    ("aa.bb.cc.dd.ee.ff").toList ≠ ("aabb.ccdd.eeff").toList := by
  refine ⟨by rfl, by rfl, by decide⟩

/-- C5 (amended): formatting an address (six lower-case zero-padded
two-digit hex pairs joined by the family separator; for the dot family six
dot-separated pairs, not the three four-hex groups the spec names) and
parsing the result is the identity on the six bytes and the format tag.
Hence parse followed by format is the identity exactly on the strings in
the image of format; a three-group dot string instead re-renders to the
pairwise dot shape while preserving bytes and family. -/
theorem c5_amended : ∀ b0 b1 b2 b3 b4 b5 : Nat, b0 < 256 → b1 < 256 → b2 < 256 →
    b3 < 256 → b4 < 256 → b5 < 256 → ∀ fmt : MacFormat,
    MacAddress.parse (MacAddress.as_string ⟨[b0, b1, b2, b3, b4, b5], fmt⟩)
      = some (Except.ok ⟨[b0, b1, b2, b3, b4, b5], fmt⟩) := by
  intro b0 b1 b2 b3 b4 b5 h0 h1 h2 h3 h4 h5 fmt
  cases fmt with
  | Colon =>
    have hs : MacAddress.as_string ⟨[b0, b1, b2, b3, b4, b5], MacFormat.Colon⟩
        = byteHex b0 ++ [':'] ++ byteHex b1 ++ [':'] ++ byteHex b2 ++ [':']
          ++ byteHex b3 ++ [':'] ++ byteHex b4 ++ [':'] ++ byteHex b5 := rfl
    rw [hs, parse_joined (cleanOf_joined [':'] rfl h0 h1 h2 h3 h4 h5) h0 h1 h2 h3 h4 h5]
    have hc := contains_eq_true_of_mem (mem_joined_sep ':' b0 b1 b2 b3 b4 b5)
    simp [hc]
  | Hyphen =>
    have hs : MacAddress.as_string ⟨[b0, b1, b2, b3, b4, b5], MacFormat.Hyphen⟩
        = byteHex b0 ++ ['-'] ++ byteHex b1 ++ ['-'] ++ byteHex b2 ++ ['-']
          ++ byteHex b3 ++ ['-'] ++ byteHex b4 ++ ['-'] ++ byteHex b5 := rfl
    rw [hs, parse_joined (cleanOf_joined ['-'] rfl h0 h1 h2 h3 h4 h5) h0 h1 h2 h3 h4 h5]
    have nc : ∀ {b : Nat}, b < 256 → ':' ∉ byteHex b :=
      fun hb => not_mem_byteHex ':' (by decide) hb
    have hc := contains_eq_true_of_mem (mem_joined_sep '-' b0 b1 b2 b3 b4 b5)
    simp [hc, nc h0, nc h1, nc h2, nc h3, nc h4, nc h5]
  | Dot =>
    have hs : MacAddress.as_string ⟨[b0, b1, b2, b3, b4, b5], MacFormat.Dot⟩
        = byteHex b0 ++ ['.'] ++ byteHex b1 ++ ['.'] ++ byteHex b2 ++ ['.']
          ++ byteHex b3 ++ ['.'] ++ byteHex b4 ++ ['.'] ++ byteHex b5 := rfl
    rw [hs, parse_joined (cleanOf_joined ['.'] rfl h0 h1 h2 h3 h4 h5) h0 h1 h2 h3 h4 h5]
    have nc : ∀ {b : Nat}, b < 256 → ':' ∉ byteHex b :=
      fun hb => not_mem_byteHex ':' (by decide) hb
    have nh : ∀ {b : Nat}, b < 256 → '-' ∉ byteHex b :=
      fun hb => not_mem_byteHex '-' (by decide) hb
    have hc := contains_eq_true_of_mem (mem_joined_sep '.' b0 b1 b2 b3 b4 b5)
    simp [hc, nc h0, nc h1, nc h2, nc h3, nc h4, nc h5,
      nh h0, nh h1, nh h2, nh h3, nh h4, nh h5]
  | Raw =>
    have hs : MacAddress.as_string ⟨[b0, b1, b2, b3, b4, b5], MacFormat.Raw⟩
        = byteHex b0 ++ [] ++ byteHex b1 ++ [] ++ byteHex b2 ++ []
          ++ byteHex b3 ++ [] ++ byteHex b4 ++ [] ++ byteHex b5 := rfl
    rw [hs, parse_joined (cleanOf_joined [] rfl h0 h1 h2 h3 h4 h5) h0 h1 h2 h3 h4 h5]
    have nc : ∀ {b : Nat}, b < 256 → ':' ∉ byteHex b :=
      fun hb => not_mem_byteHex ':' (by decide) hb
    have nh : ∀ {b : Nat}, b < 256 → '-' ∉ byteHex b :=
      fun hb => not_mem_byteHex '-' (by decide) hb
    have nd : ∀ {b : Nat}, b < 256 → '.' ∉ byteHex b :=
      fun hb => not_mem_byteHex '.' (by decide) hb
    simp [nc h0, nc h1, nc h2, nc h3, nc h4, nc h5,
      nh h0, nh h1, nh h2, nh h3, nh h4, nh h5,
      nd h0, nd h1, nd h2, nd h3, nd h4, nd h5]

/-- C5 witness: the amended round trip applied at the bytes of
de:ad:be:ef:00:ff in each of the four formats. -/
theorem c5_witness :
    MacAddress.parse (MacAddress.as_string ⟨[222, 173, 190, 239, 0, 255], MacFormat.Colon⟩)
      = some (Except.ok ⟨[222, 173, 190, 239, 0, 255], MacFormat.Colon⟩) ∧
    MacAddress.parse (MacAddress.as_string ⟨[222, 173, 190, 239, 0, 255], MacFormat.Hyphen⟩)
      = some (Except.ok ⟨[222, 173, 190, 239, 0, 255], MacFormat.Hyphen⟩) ∧
    MacAddress.parse (MacAddress.as_string ⟨[222, 173, 190, 239, 0, 255], MacFormat.Dot⟩)
      = some (Except.ok ⟨[222, 173, 190, 239, 0, 255], MacFormat.Dot⟩) ∧
    MacAddress.parse (MacAddress.as_string ⟨[222, 173, 190, 239, 0, 255], MacFormat.Raw⟩)
      = some (Except.ok ⟨[222, 173, 190, 239, 0, 255], MacFormat.Raw⟩) :=
  ⟨c5_amended 222 173 190 239 0 255 (by decide) (by decide) (by decide) (by decide)
      (by decide) (by decide) MacFormat.Colon,
    c5_amended 222 173 190 239 0 255 (by decide) (by decide) (by decide) (by decide)
      (by decide) (by decide) MacFormat.Hyphen,
    c5_amended 222 173 190 239 0 255 (by decide) (by decide) (by decide) (by decide)
      (by decide) (by decide) MacFormat.Dot,
    c5_amended 222 173 190 239 0 255 (by decide) (by decide) (by decide) (by decide)
      (by decide) (by decide) MacFormat.Raw⟩

/- ----------------------------------------------------------------------
   Claims about the rule engine and the random generator
   ---------------------------------------------------------------------- -/

/-- C7: generate_random_mac with no vendor prefix always returns a colon
format MAC whose first byte satisfies byte0 and 3 = 2 (locally
administered, unicast), the other bits of byte 0 and the whole of bytes
1 through 5 coming from the successive random draws. -/
theorem c7_random_mac : ∀ rng : Nat → Nat,
    ∃ m, generate_random_mac rng none = Except.ok m ∧ m.format = MacFormat.Colon ∧
      m.bytes.length = 6 ∧
      (m.bytes.getD 0 0) &&& 3 = 2 ∧
      (m.bytes.getD 0 0) >>> 2 = (rng 0 % 256) >>> 2 ∧
      m.bytes.getD 1 0 = rng 1 % 256 ∧ m.bytes.getD 2 0 = rng 2 % 256 ∧
      m.bytes.getD 3 0 = rng 3 % 256 ∧ m.bytes.getD 4 0 = rng 4 % 256 ∧
      m.bytes.getD 5 0 = rng 5 % 256 := by
  intro rng
  refine ⟨_, rfl, rfl, rfl, ?_, ?_, rfl, rfl, rfl, rfl, rfl⟩
  · have hb : rng 0 % 256 < 256 := Nat.mod_lt _ (by norm_num)
    have key : ∀ r, r < 256 → ((r &&& 254) ||| 2) &&& 3 = 2 := by decide
    exact key _ hb
  · have hb : rng 0 % 256 < 256 := Nat.mod_lt _ (by norm_num)
    have key : ∀ r, r < 256 → ((r &&& 254) ||| 2) >>> 2 = r >>> 2 := by decide
    exact key _ hb

/-- C7 witness: the theorem at the constant-zero draw sequence. -/
theorem c7_witness :
    ∃ m, generate_random_mac (fun _ => 0) none = Except.ok m ∧
      m.format = MacFormat.Colon ∧ m.bytes.length = 6 ∧
      (m.bytes.getD 0 0) &&& 3 = 2 ∧
      (m.bytes.getD 0 0) >>> 2 = ((fun _ => 0) 0 % 256) >>> 2 ∧
      m.bytes.getD 1 0 = (fun _ => 0) 1 % 256 ∧ m.bytes.getD 2 0 = (fun _ => 0) 2 % 256 ∧
      m.bytes.getD 3 0 = (fun _ => 0) 3 % 256 ∧ m.bytes.getD 4 0 = (fun _ => 0) 4 % 256 ∧
      m.bytes.getD 5 0 = (fun _ => 0) 5 % 256 :=
  c7_random_mac (fun _ => 0)

/-- C6: is_rule_active is false for a disabled rule; true for an enabled
rule with no schedule; and for an enabled scheduled rule whose two times
parse, it returns exactly the conjunction of case-insensitive weekday
membership and start <= now <= end, inclusive at both bounds. -/
theorem c6_is_rule_active : ∀ (rule : AppRule) (now : LocalNow),
    (rule.enabled = false → is_rule_active rule now = some false) ∧
    (rule.enabled = true → rule.schedule = none → is_rule_active rule now = some true) ∧
    (∀ sch st et, rule.enabled = true → rule.schedule = some sch →
      parseTimeHM sch.start_time = some st → parseTimeHM sch.end_time = some et →
      is_rule_active rule now
        = some ((sch.days.any (fun day => toLowerStr day == toLowerStr now.weekday))
            && (decide (st ≤ now.timeOfDay) && decide (now.timeOfDay ≤ et)))) := by
  intro rule now
  refine ⟨fun h => ?_, fun h hs => ?_, fun sch st et h hs hst het => ?_⟩
  · simp [is_rule_active, h]
  · simp [is_rule_active, h, hs]
  · cases hd : sch.days.any (fun day => toLowerStr day == toLowerStr now.weekday) with
    | false => simp [is_rule_active, h, hs, hd]
    | true =>
      by_cases ht : now.timeOfDay < st ∨ et < now.timeOfDay
      · have e1 : (decide (st ≤ now.timeOfDay) && decide (now.timeOfDay ≤ et)) = false := by
          rcases ht with ht | ht
          · have : (decide (st ≤ now.timeOfDay)) = false := by simp; omega
            simp [this]
          · have : (decide (now.timeOfDay ≤ et)) = false := by simp; omega
            simp [this]
        simp [is_rule_active, h, hs, hd, hst, het, ht, e1]
      · have e1 : (decide (st ≤ now.timeOfDay)) = true := by simp; omega
        have e2 : (decide (now.timeOfDay ≤ et)) = true := by simp; omega
        simp [is_rule_active, h, hs, hd, hst, het, ht, e1, e2]

/-- C6 witness: the spec example rule (monday, 09:00 to 17:00) through the
theorem: active at Monday 12:00; inactive at Monday 08:59, Monday 17:01
and Tuesday 12:00. -/
theorem c6_witness :
    is_rule_active mondayRule ⟨("Monday").toList, 12 * 3600⟩ = some true ∧
    is_rule_active mondayRule ⟨("Monday").toList, 8 * 3600 + 59 * 60⟩ = some false ∧
    is_rule_active mondayRule ⟨("Monday").toList, 17 * 3600 + 60⟩ = some false ∧
    is_rule_active mondayRule ⟨("Tuesday").toList, 12 * 3600⟩ = some false := by
  refine ⟨?_, ?_, ?_, ?_⟩
  · rw [(c6_is_rule_active mondayRule ⟨("Monday").toList, 12 * 3600⟩).2.2 _ 32400 61200
      rfl rfl (by decide) (by decide)]
    decide
  · rw [(c6_is_rule_active mondayRule ⟨("Monday").toList, 8 * 3600 + 59 * 60⟩).2.2 _
      32400 61200 rfl rfl (by decide) (by decide)]
    decide
  · rw [(c6_is_rule_active mondayRule ⟨("Monday").toList, 17 * 3600 + 60⟩).2.2 _
      32400 61200 rfl rfl (by decide) (by decide)]
    decide
  · rw [(c6_is_rule_active mondayRule ⟨("Tuesday").toList, 12 * 3600⟩).2.2 _
      32400 61200 rfl rfl (by decide) (by decide)]
    decide

/-- C10: for every enabled rule whose schedule lists the current weekday
case-insensitively but whose start or end time string does not parse as
HH:MM, is_rule_active reaches the unwrap and panics (none) instead of
returning a boolean; nothing in the rule structure constrains those
strings, which arrive unvalidated from the deserialized rule file. -/
theorem c10_unwrap_panic : ∀ (rule : AppRule) (sch : Schedule) (now : LocalNow),
    rule.enabled = true → rule.schedule = some sch →
    sch.days.any (fun day => toLowerStr day == toLowerStr now.weekday) = true →
    (parseTimeHM sch.start_time = none ∨ parseTimeHM sch.end_time = none) →
    is_rule_active rule now = none := by
  intro rule sch now hen hsch hday hbad
  rcases hbad with hb | hb
  · simp [is_rule_active, hen, hsch, hday, hb]
  · cases hst : parseTimeHM sch.start_time with
    | none => simp [is_rule_active, hen, hsch, hday, hst]
    | some st => simp [is_rule_active, hen, hsch, hday, hst, hb]

/-- C10 witness: badTimeRule (start time nine) on a Monday noon panics. -/
theorem c10_witness :
    is_rule_active badTimeRule ⟨("Monday").toList, 12 * 3600⟩ = none :=
  c10_unwrap_panic badTimeRule _ _ rfl rfl (by decide) (Or.inl (by decide))

/-- C8 counterexample: the store key is the bare string concatenation
app_name colon interface, so after adding the rule for the pair
(a:b, c), get_rule returns that rule for the distinct pair (a, b:c),
which was never added: the store does not behave as a mapping on pairs,
and an add for one pair can change what another pair sees. -/
theorem c8_counterexample :
    get_rule (add_rule emptyStore aliasRule) (("a").toList) (("b:c").toList)
      = some aliasRule ∧
    (("a").toList, ("b:c").toList) ≠ (aliasRule.app_name, aliasRule.interface) := by
  exact ⟨by rfl, by decide⟩

/-- C8 (amended): the store is a mapping keyed by the single string
app_name ++ colon ++ interface, and under that key the CRUD operations
are pointwise: an add stores the rule under its own key and leaves every
other key unchanged, a remove clears exactly its key; hence at most one
rule per key, but distinct pairs whose concatenations coincide alias one
entry. -/
theorem c8_amended : ∀ (store : RuleStore) (r : AppRule) (a i a2 i2 : List Char),
    (get_rule (add_rule store r) r.app_name r.interface = some r) ∧
    (ruleKey a i ≠ ruleKey r.app_name r.interface →
      get_rule (add_rule store r) a i = get_rule store a i) ∧
    (get_rule (remove_rule store a2 i2) a2 i2 = none) ∧
    (ruleKey a i ≠ ruleKey a2 i2 →
      get_rule (remove_rule store a2 i2) a i = get_rule store a i) := by
  intro store r a i a2 i2
  refine ⟨?_, fun h => ?_, ?_, fun h => ?_⟩
  · simp [get_rule, add_rule]
  · simp [get_rule, add_rule, h]
  · simp [get_rule, remove_rule]
  · simp [get_rule, remove_rule, h]

/-- C8 witness: the amended key behaviour at concrete rules. -/
theorem c8_witness :
    get_rule (add_rule emptyStore aliasRule) aliasRule.app_name aliasRule.interface
      = some aliasRule ∧
    get_rule (add_rule emptyStore aliasRule) (("x").toList) (("y").toList)
      = get_rule emptyStore (("x").toList) (("y").toList) ∧
    get_rule (remove_rule (add_rule emptyStore aliasRule) (("a:b").toList) (("c").toList))
      (("a:b").toList) (("c").toList) = none :=
  ⟨(c8_amended emptyStore aliasRule (("x").toList) (("y").toList) (("x").toList)
      (("y").toList)).1,
    (c8_amended emptyStore aliasRule (("x").toList) (("y").toList) (("x").toList)
      (("y").toList)).2.1 (by decide),
    (c8_amended (add_rule emptyStore aliasRule) aliasRule (("x").toList) (("y").toList)
      (("a:b").toList) (("c").toList)).2.2.1⟩

/- ----------------------------------------------------------------------
   Claims about the change orchestration
   ---------------------------------------------------------------------- -/

/-- C1 counterexample: requested aa:bb:cc:dd:ee:ff and re-read
aa-bb-cc-dd-ee-ff denote the same six bytes in different separator
families, yet the Linux verify_mac_change only lower-cases the two
strings, never normalizes separators, and aborts with ValidationFailed. -/
theorem c1_counterexample :
    MacAddress.parse (("aa:bb:cc:dd:ee:ff").toList)
      = some (Except.ok ⟨[170, 187, 204, 221, 238, 255], MacFormat.Colon⟩) ∧
    MacAddress.parse (("aa-bb-cc-dd-ee-ff").toList)
      = some (Except.ok ⟨[170, 187, 204, 221, 238, 255], MacFormat.Hyphen⟩) ∧
    verify_mac_change (Except.ok (("aa-bb-cc-dd-ee-ff").toList))
        (("aa:bb:cc:dd:ee:ff").toList)
      = Except.error (MacError.ValidationFailed
          (verifyFailMsg (("aa:bb:cc:dd:ee:ff").toList)
            (("aa-bb-cc-dd-ee-ff").toList))) := by
  exact ⟨by rfl, by rfl, by rfl⟩

/-- C1 (amended): after the re-read, the Linux verify_mac_change compares
the two strings lower-cased with no separator normalization: it succeeds
exactly when the lower-cased strings coincide, and otherwise aborts with
ValidationFailed whose message embeds both the expected and the observed
value; equal bytes written with different separator families therefore
fail verification. -/
theorem c1_amended : ∀ cur exp : List Char,
    (verify_mac_change (Except.ok cur) exp = Except.ok ()
      ↔ toLowerStr cur = toLowerStr exp) ∧
    (toLowerStr cur ≠ toLowerStr exp →
      verify_mac_change (Except.ok cur) exp
        = Except.error (MacError.ValidationFailed (verifyFailMsg exp cur)) ∧
      (∃ x y, x ++ exp ++ y = verifyFailMsg exp cur) ∧
      (∃ x y, x ++ cur ++ y = verifyFailMsg exp cur)) := by
  intro cur exp
  constructor
  · constructor
    · intro h
      by_contra hne
      simp [verify_mac_change, hne] at h
    · intro h
      simp [verify_mac_change, h]
  · intro hne
    refine ⟨by simp [verify_mac_change, hne], ?_, ?_⟩
    · exact ⟨("MAC address change verification failed. Expected ").toList,
        (", got ").toList ++ cur, by simp [verifyFailMsg]⟩
    · exact ⟨("MAC address change verification failed. Expected ").toList ++ exp
        ++ (", got ").toList, [], by simp [verifyFailMsg]⟩

/-- C1 witness: the amended characterization at a case-differing match and
at a concrete mismatch. -/
theorem c1_witness :
    verify_mac_change (Except.ok (("AA:BB:CC:DD:EE:FF").toList))
        (("aa:bb:cc:dd:ee:ff").toList) = Except.ok () ∧
    verify_mac_change (Except.ok (("aa-bb-cc-dd-ee-ff").toList))
        (("aa:bb:cc:dd:ee:ff").toList)
      = Except.error (MacError.ValidationFailed
          (verifyFailMsg (("aa:bb:cc:dd:ee:ff").toList)
            (("aa-bb-cc-dd-ee-ff").toList))) := by
  constructor
  · exact (c1_amended (("AA:BB:CC:DD:EE:FF").toList) (("aa:bb:cc:dd:ee:ff").toList)).1.mpr
      (by decide)
  · exact ((c1_amended (("aa-bb-cc-dd-ee-ff").toList)
      (("aa:bb:cc:dd:ee:ff").toList)).2 (by decide)).1

theorem tryLinkDown_all_fail {ld : Nat → CmdOutput} (h1 : (ld 1).success = false)
    (h2 : (ld 2).success = false) (h3 : (ld 3).success = false) :
    tryLinkDown ld 1 3
      = ([Event.linkDownAttempt 1, Event.pause, Event.linkDownAttempt 2, Event.pause,
          Event.linkDownAttempt 3, Event.pause],
         Except.error (MacError.SystemError (cmdErrMsg (ld 3)))) := by
  simp [tryLinkDown, execute_command, h1, h2, h3]

theorem tryLinkDown_first {ld : Nat → CmdOutput} (h1 : (ld 1).success = true) :
    tryLinkDown ld 1 3 = ([Event.linkDownAttempt 1], Except.ok ()) := by
  simp [tryLinkDown, execute_command, h1]

theorem tryLinkDown_second {ld : Nat → CmdOutput} (h1 : (ld 1).success = false)
    (h2 : (ld 2).success = true) :
    tryLinkDown ld 1 3
      = ([Event.linkDownAttempt 1, Event.pause, Event.linkDownAttempt 2],
         Except.ok ()) := by
  simp [tryLinkDown, execute_command, h1, h2]

theorem tryLinkDown_third {ld : Nat → CmdOutput} (h1 : (ld 1).success = false)
    (h2 : (ld 2).success = false) (h3 : (ld 3).success = true) :
    tryLinkDown ld 1 3
      = ([Event.linkDownAttempt 1, Event.pause, Event.linkDownAttempt 2, Event.pause,
          Event.linkDownAttempt 3], Except.ok ()) := by
  simp [tryLinkDown, execute_command, h1, h2, h3]

theorem change_mac_after_down {w : World} {p : List Char} (hroot : w.root = true)
    (hif : w.iface_present = true) (hp : w.ip_cmd = some p)
    {tr : List Event} (htr : tryLinkDown w.link_down 1 3 = (tr, Except.ok ()))
    (interface mac : List Char) (permanent : Bool) :
    ∃ tail, (change_mac w interface mac permanent).1
      = [Event.permCheck, Event.ifaceCheck, Event.serviceStop] ++ tr
        ++ Event.setAddress :: tail := by
  simp only [change_mac, hroot, hif, hp, htr]
  cases hsa : execute_command w.set_address with
  | error e => exact ⟨[], by simp⟩
  | ok u =>
    cases hup : execute_command w.link_up with
    | error e => exact ⟨[Event.linkUp], by simp⟩
    | ok v =>
      cases permanent with
      | true =>
        cases hpr : w.persist with
        | error e =>
          exact ⟨[Event.linkUp, Event.serviceStart, Event.persist], by simp⟩
        | ok q =>
          cases hv : verify_mac_change w.current_mac mac with
          | error e =>
            exact ⟨[Event.linkUp, Event.serviceStart, Event.persist, Event.verify],
              by simp⟩
          | ok q2 =>
            exact ⟨[Event.linkUp, Event.serviceStart, Event.persist, Event.verify],
              by simp⟩
      | false =>
        cases hv : verify_mac_change w.current_mac mac with
        | error e =>
          exact ⟨[Event.linkUp, Event.serviceStart, Event.verify], by simp⟩
        | ok q2 =>
          exact ⟨[Event.linkUp, Event.serviceStart, Event.verify], by simp⟩

/-- C2: only link-down is retried: up to three attempts, a pause after
every failure, success on attempt 1, 2 or 3 proceeding to the address-set
step; exhausting all three aborts with the SystemError built from the
last captured output; an address-set or link-up failure aborts at once
with its own SystemError, each of those commands running exactly once. -/
theorem c2_retry : ∀ (w : World) (interface mac : List Char) (permanent : Bool)
    (p : List Char), w.root = true → w.iface_present = true → w.ip_cmd = some p →
    ((w.link_down 1).success = false → (w.link_down 2).success = false →
      (w.link_down 3).success = false →
      change_mac w interface mac permanent
        = ([Event.permCheck, Event.ifaceCheck, Event.serviceStop,
            Event.linkDownAttempt 1, Event.pause, Event.linkDownAttempt 2, Event.pause,
            Event.linkDownAttempt 3, Event.pause],
           Except.error (MacError.SystemError (cmdErrMsg (w.link_down 3))))) ∧
    ((w.link_down 1).success = true →
      ∃ tail, (change_mac w interface mac permanent).1
        = [Event.permCheck, Event.ifaceCheck, Event.serviceStop,
           Event.linkDownAttempt 1, Event.setAddress] ++ tail) ∧
    ((w.link_down 1).success = false → (w.link_down 2).success = true →
      ∃ tail, (change_mac w interface mac permanent).1
        = [Event.permCheck, Event.ifaceCheck, Event.serviceStop,
           Event.linkDownAttempt 1, Event.pause, Event.linkDownAttempt 2,
           Event.setAddress] ++ tail) ∧
    ((w.link_down 1).success = false → (w.link_down 2).success = false →
      (w.link_down 3).success = true →
      ∃ tail, (change_mac w interface mac permanent).1
        = [Event.permCheck, Event.ifaceCheck, Event.serviceStop,
           Event.linkDownAttempt 1, Event.pause, Event.linkDownAttempt 2, Event.pause,
           Event.linkDownAttempt 3, Event.setAddress] ++ tail) ∧
    ((w.link_down 1).success = true → w.set_address.success = false →
      change_mac w interface mac permanent
        = ([Event.permCheck, Event.ifaceCheck, Event.serviceStop,
            Event.linkDownAttempt 1, Event.setAddress],
           Except.error (MacError.SystemError (cmdErrMsg w.set_address)))) ∧
    ((w.link_down 1).success = true → w.set_address.success = true →
      w.link_up.success = false →
      change_mac w interface mac permanent
        = ([Event.permCheck, Event.ifaceCheck, Event.serviceStop,
            Event.linkDownAttempt 1, Event.setAddress, Event.linkUp],
           Except.error (MacError.SystemError (cmdErrMsg w.link_up)))) ∧
    ((w.link_down 1).success = false → (w.link_down 2).success = false →
      (w.link_down 3).success = true → w.set_address.success = true →
      w.link_up.success = true → permanent = false →
      verify_mac_change w.current_mac mac = Except.ok () →
      (change_mac w interface mac permanent).2 = Except.ok ()) := by
  intro w interface mac permanent p hroot hif hp
  refine ⟨fun h1 h2 h3 => ?_, fun h1 => ?_, fun h1 h2 => ?_, fun h1 h2 h3 => ?_,
    fun h1 hsa => ?_, fun h1 hsa hup => ?_, fun h1 h2 h3 hsa hup hperm hv => ?_⟩
  · simp [change_mac, hroot, hif, hp, tryLinkDown_all_fail h1 h2 h3]
  · obtain ⟨tail, htl⟩ := change_mac_after_down hroot hif hp (tryLinkDown_first h1)
      interface mac permanent
    exact ⟨tail, by simpa using htl⟩
  · obtain ⟨tail, htl⟩ := change_mac_after_down hroot hif hp (tryLinkDown_second h1 h2)
      interface mac permanent
    exact ⟨tail, by simpa using htl⟩
  · obtain ⟨tail, htl⟩ := change_mac_after_down hroot hif hp
      (tryLinkDown_third h1 h2 h3) interface mac permanent
    exact ⟨tail, by simpa using htl⟩
  · have hsa2 : execute_command w.set_address
        = Except.error (MacError.SystemError (cmdErrMsg w.set_address)) := by
      simp [execute_command, hsa]
    simp [change_mac, hroot, hif, hp, tryLinkDown_first h1, hsa2]
  · have hsa2 : execute_command w.set_address = Except.ok () := by
      simp [execute_command, hsa]
    have hup2 : execute_command w.link_up
        = Except.error (MacError.SystemError (cmdErrMsg w.link_up)) := by
      simp [execute_command, hup]
    simp [change_mac, hroot, hif, hp, tryLinkDown_first h1, hsa2, hup2]
  · have hsa2 : execute_command w.set_address = Except.ok () := by
      simp [execute_command, hsa]
    have hup2 : execute_command w.link_up = Except.ok () := by
      simp [execute_command, hup]
    subst hperm
    simp [change_mac, hroot, hif, hp, tryLinkDown_third h1 h2 h3, hsa2, hup2, hv]

/-- C2 witness: the theorem at the worlds where every link-down attempt
fails with stderr boom, and where the third try succeeds. -/
theorem c2_witness :
    change_mac failDownWorld (("eth0").toList) (("aa:bb:cc:dd:ee:ff").toList) false
      = ([Event.permCheck, Event.ifaceCheck, Event.serviceStop,
          Event.linkDownAttempt 1, Event.pause, Event.linkDownAttempt 2, Event.pause,
          Event.linkDownAttempt 3, Event.pause],
         Except.error (MacError.SystemError (cmdErrMsg (failDownWorld.link_down 3)))) ∧
    (change_mac thirdTryWorld (("eth0").toList) (("aa:bb:cc:dd:ee:ff").toList) false).2
      = Except.ok () := by
  constructor
  · exact (c2_retry failDownWorld (("eth0").toList) (("aa:bb:cc:dd:ee:ff").toList) false
      (("/sbin/ip").toList) rfl rfl rfl).1 rfl rfl rfl
  · exact (c2_retry thirdTryWorld (("eth0").toList) (("aa:bb:cc:dd:ee:ff").toList) false
      (("/sbin/ip").toList) rfl rfl rfl).2.2.2.2.2.2 rfl rfl rfl rfl rfl rfl (by rfl)

theorem tryLinkDown_events {ld : Nat → CmdOutput} :
    ∀ (n a : Nat) (e : Event), e ∈ (tryLinkDown ld a n).1 →
      e = Event.pause ∨ ∃ k, e = Event.linkDownAttempt k := by
  intro n
  induction n with
  | zero => intro a e he; exact absurd he (List.not_mem_nil e)
  | succ m ih =>
    intro a e he
    rw [tryLinkDown] at he
    cases hs : (ld a).success with
    | true =>
      rw [show execute_command (ld a) = Except.ok () from by
        simp [execute_command, hs]] at he
      simp at he
      exact Or.inr ⟨a, he⟩
    | false =>
      rcases hq : tryLinkDown ld (a + 1) m with ⟨tr2, r2⟩
      rw [show execute_command (ld a)
          = Except.error (MacError.SystemError (cmdErrMsg (ld a))) from by
        simp [execute_command, hs], hq] at he
      simp only [] at he
      rw [apply_ite Prod.fst] at he
      by_cases hm : m = 0
      · rw [if_pos hm] at he
        simp at he
        rcases he with he | he
        · exact Or.inr ⟨a, he⟩
        · exact Or.inl he
      · rw [if_neg hm] at he
        simp at he
        rcases he with he | he | he
        · exact Or.inr ⟨a, he⟩
        · exact Or.inl he
        · exact ih (a + 1) e (by rw [hq]; exact he)

/-- C4 counterexample: a run in which every step succeeds with permanent
requested terminates in Done, but its trace performs the persistence step
before the verification step, contradicting the claimed
LinkUp-Verified-Persisted order. -/
theorem c4_counterexample :
    (change_mac okWorld (("eth0").toList) (("aa:bb:cc:dd:ee:ff").toList) true).2
      = Except.ok () ∧
    (change_mac okWorld (("eth0").toList) (("aa:bb:cc:dd:ee:ff").toList) true).1
      = [Event.permCheck, Event.ifaceCheck, Event.serviceStop, Event.linkDownAttempt 1,
         Event.setAddress, Event.linkUp, Event.serviceStart, Event.persist,
         Event.verify] ∧
    ((change_mac okWorld (("eth0").toList) (("aa:bb:cc:dd:ee:ff").toList) true).1.indexOf
        Event.persist
      < (change_mac okWorld (("eth0").toList)
          (("aa:bb:cc:dd:ee:ff").toList) true).1.indexOf Event.verify) := by
  refine ⟨by rfl, by rfl, by decide⟩

/-- C4 (amended): persistence still happens only on permanent runs, but it
is performed after LinkUp and before the verification step, not after it:
every successful permanent run traces LinkDown attempts, then AddressSet,
LinkUp, service restart, Persisted, and Verified last. -/
theorem c4_amended : ∀ (w : World) (interface mac : List Char),
    (∀ permanent, permanent = false →
      Event.persist ∉ (change_mac w interface mac permanent).1) ∧
    ((change_mac w interface mac true).2 = Except.ok () →
      ∃ tr, (change_mac w interface mac true).1
          = [Event.permCheck, Event.ifaceCheck, Event.serviceStop] ++ tr
            ++ [Event.setAddress, Event.linkUp, Event.serviceStart, Event.persist,
                Event.verify]
        ∧ ∀ e ∈ tr, e = Event.pause ∨ ∃ k, e = Event.linkDownAttempt k) := by
  intro w interface mac
  constructor
  · intro permanent hperm
    subst hperm
    by_cases hroot : w.root = true
    · by_cases hif : w.iface_present = true
      · cases hp : w.ip_cmd with
        | none => simp [change_mac, hroot, hif, hp]
        | some p =>
          have hnp : ∀ tr2 : List Event, (∀ e ∈ tr2,
              e = Event.pause ∨ ∃ k, e = Event.linkDownAttempt k) →
              Event.persist ∉ tr2 := by
            intro tr2 hall hmem
            rcases hall Event.persist hmem with he | ⟨k, he⟩ <;> exact Event.noConfusion he
          rcases htr : tryLinkDown w.link_down 1 3 with ⟨tr, r⟩
          have htrev : Event.persist ∉ tr :=
            hnp tr (fun e he => tryLinkDown_events 3 1 e (by rw [htr]; exact he))
          cases r with
          | error e => simp [change_mac, hroot, hif, hp, htr, htrev]
          | ok u =>
            cases hsa : execute_command w.set_address with
            | error e => simp [change_mac, hroot, hif, hp, htr, htrev, hsa]
            | ok v =>
              cases hup : execute_command w.link_up with
              | error e => simp [change_mac, hroot, hif, hp, htr, htrev, hsa, hup]
              | ok q =>
                cases hv : verify_mac_change w.current_mac mac with
                | error e =>
                  simp [change_mac, hroot, hif, hp, htr, htrev, hsa, hup, hv]
                | ok q2 =>
                  simp [change_mac, hroot, hif, hp, htr, htrev, hsa, hup, hv]
      · simp [change_mac, hroot, hif]
    · simp [change_mac, hroot]
  · intro hok
    by_cases hroot : w.root = true
    · by_cases hif : w.iface_present = true
      · cases hp : w.ip_cmd with
        | none => simp [change_mac, hroot, hif, hp] at hok
        | some p =>
          rcases htr : tryLinkDown w.link_down 1 3 with ⟨tr, r⟩
          cases r with
          | error e => simp [change_mac, hroot, hif, hp, htr] at hok
          | ok u =>
            cases hsa : execute_command w.set_address with
            | error e => simp [change_mac, hroot, hif, hp, htr, hsa] at hok
            | ok v =>
              cases hup : execute_command w.link_up with
              | error e => simp [change_mac, hroot, hif, hp, htr, hsa, hup] at hok
              | ok q =>
                cases hpr : w.persist with
                | error e =>
                  simp [change_mac, hroot, hif, hp, htr, hsa, hup, hpr] at hok
                | ok q2 =>
                  cases hv : verify_mac_change w.current_mac mac with
                  | error e =>
                    simp [change_mac, hroot, hif, hp, htr, hsa, hup, hpr, hv] at hok
                  | ok q3 =>
                    refine ⟨tr, ?_, fun e he =>
                      tryLinkDown_events 3 1 e (by rw [htr]; exact he)⟩
                    simp [change_mac, hroot, hif, hp, htr, hsa, hup, hpr, hv]
      · simp [change_mac, hroot, hif] at hok
    · simp [change_mac, hroot] at hok

/-- C4 witness: the amended ordering at the all-success world. -/
theorem c4_witness :
    Event.persist ∉ (change_mac okWorld (("eth0").toList)
      (("aa:bb:cc:dd:ee:ff").toList) false).1 ∧
    ∃ tr, (change_mac okWorld (("eth0").toList) (("aa:bb:cc:dd:ee:ff").toList) true).1
        = [Event.permCheck, Event.ifaceCheck, Event.serviceStop] ++ tr
          ++ [Event.setAddress, Event.linkUp, Event.serviceStart, Event.persist,
              Event.verify]
      ∧ ∀ e ∈ tr, e = Event.pause ∨ ∃ k, e = Event.linkDownAttempt k :=
  ⟨(c4_amended okWorld (("eth0").toList) (("aa:bb:cc:dd:ee:ff").toList)).1 false rfl,
    (c4_amended okWorld (("eth0").toList) (("aa:bb:cc:dd:ee:ff").toList)).2 (by rfl)⟩

end Chameleon
